import Mathlib

/-!
Verification of the chineselearning web application's data-store operations,
shallowly embedded from the TypeScript sources.

The per-user stores are CSV files that every request handler reads in full,
parses, transforms, and writes back in full.  The embedding models each store
by its parsed content (the association list / record list the handlers
actually operate on), and each HTTP handler by the pure transformation it
performs on that content.
-/

namespace ChineseLearning

/-! ### Progress store (src/app/api/progress/route.ts)

The progress store maps a characterId to cumulative correct/incorrect counts.
`parseCSV` produces a JS object keyed by characterId; we model it as an
association list of (characterId, counts) in insertion order, which is how a
JS object iterates its keys.  Counts are JS numbers; the handler performs no
validation on them, so we model them as integers. -/

/-- The `{ correct, incorrect }` record stored per characterId. -/
structure ProgressCounts where
  correct : Int
  incorrect : Int
deriving DecidableEq

/-- The parsed content of a user's `progress.csv`: characterId to counts,
in insertion order. -/
abbrev ProgressStore := List (String × ProgressCounts)

/-- One iteration of the merge loop in the progress POST handler
(route.ts lines 109-116): if `existingProgress[id]` exists the incoming
counts are added onto it, otherwise the entry is inserted. -/
def mergeEntry (store : ProgressStore) (id : String) (inc : ProgressCounts) :
    ProgressStore :=
  if store.any (fun p => p.1 == id) then
    store.map (fun p =>
      if p.1 == id then
        (p.1, ⟨p.2.correct + inc.correct, p.2.incorrect + inc.incorrect⟩)
      else p)
  else
    store ++ [(id, inc)]

/-- The progress POST handler's merge (route.ts lines 99-119): fold the
entries of the request body (a JS object, modelled as its entry list) into
the on-disk store. -/
def progressMerge (store : ProgressStore) (body : List (String × ProgressCounts)) :
    ProgressStore :=
  body.foldl (fun s e => mergeEntry s e.1 e.2) store

/-- A sequence of progress POST requests applied in order: each one reads the
store left by the previous one, merges its body, and writes the result back. -/
def applyMerges (store : ProgressStore)
    (bodies : List (List (String × ProgressCounts))) : ProgressStore :=
  bodies.foldl progressMerge store

/-- The counts stored for a characterId, `{correct: 0, incorrect: 0}` when the
id has no entry (the default the dashboard and the merge both use). -/
def storedCounts (store : ProgressStore) (id : String) : ProgressCounts :=
  match store.find? (fun p => p.1 == id) with
  | some p => p.2
  | none => ⟨0, 0⟩

/-- Sum of the `correct` increments submitted for `id` in one request body. -/
def submittedCorrect (body : List (String × ProgressCounts)) (id : String) : Int :=
  ((body.filter (fun e => e.1 == id)).map (fun e => e.2.correct)).sum

/-- Sum of the `incorrect` increments submitted for `id` in one request body. -/
def submittedIncorrect (body : List (String × ProgressCounts)) (id : String) : Int :=
  ((body.filter (fun e => e.1 == id)).map (fun e => e.2.incorrect)).sum

/-- Total `correct` increments for `id` across a sequence of request bodies. -/
def totalSubmittedCorrect (bodies : List (List (String × ProgressCounts)))
    (id : String) : Int :=
  (bodies.map (fun b => submittedCorrect b id)).sum

/-- Total `incorrect` increments for `id` across a sequence of request bodies. -/
def totalSubmittedIncorrect (bodies : List (List (String × ProgressCounts)))
    (id : String) : Int :=
  (bodies.map (fun b => submittedIncorrect b id)).sum

/-- The value-updating function of the merge loop's map, abbreviated for the
lemmas below. -/
def bumpIfId (id : String) (inc : ProgressCounts) (p : String × ProgressCounts) :
    String × ProgressCounts :=
  if p.1 == id then
    (p.1, ⟨p.2.correct + inc.correct, p.2.incorrect + inc.incorrect⟩)
  else p

theorem mergeEntry_eq_map (st : ProgressStore) (id : String) (inc : ProgressCounts)
    (h : st.any (fun p => p.1 == id)) :
    mergeEntry st id inc = st.map (bumpIfId id inc) := by
  unfold mergeEntry bumpIfId
  rw [if_pos h]

theorem mergeEntry_eq_append (st : ProgressStore) (id : String) (inc : ProgressCounts)
    (h : ¬ st.any (fun p => p.1 == id)) :
    mergeEntry st id inc = st ++ [(id, inc)] := by
  unfold mergeEntry
  rw [if_neg h]

theorem bumpIfId_key (id id' : String) (inc : ProgressCounts) :
    ((fun q : String × ProgressCounts => q.1 == id') ∘ bumpIfId id inc) =
      (fun p : String × ProgressCounts => p.1 == id') := by
  funext p
  unfold bumpIfId
  by_cases hp : p.1 = id <;> simp [hp]

theorem storedCounts_mergeEntry_self (st : ProgressStore) (id : String)
    (inc : ProgressCounts) :
    storedCounts (mergeEntry st id inc) id =
      ⟨(storedCounts st id).correct + inc.correct,
       (storedCounts st id).incorrect + inc.incorrect⟩ := by
  by_cases h : st.any (fun p => p.1 == id)
  · rw [mergeEntry_eq_map st id inc h]
    unfold storedCounts
    rw [List.find?_map, bumpIfId_key]
    rcases hfind : st.find? (fun p => p.1 == id) with _ | q
    · rw [List.find?_eq_none] at hfind
      rw [List.any_eq_true] at h
      obtain ⟨x, hx, hxid⟩ := h
      exact absurd hxid (hfind x hx)
    · have hq : q.1 = id := by simpa using List.find?_some hfind
      rw [hfind]
      simp [bumpIfId, hq]
  · rw [mergeEntry_eq_append st id inc h]
    unfold storedCounts
    rw [List.find?_append]
    rcases hfind : st.find? (fun p => p.1 == id) with _ | q
    · rw [hfind]
      simp
    · have hq := List.find?_some hfind
      have : st.any (fun p => p.1 == id) = true := by
        rw [List.any_eq_true]
        exact ⟨q, List.mem_of_find?_eq_some hfind, hq⟩
      exact absurd this h

theorem storedCounts_mergeEntry_other (st : ProgressStore) (id id' : String)
    (inc : ProgressCounts) (hne : id' ≠ id) :
    storedCounts (mergeEntry st id inc) id' = storedCounts st id' := by
  by_cases h : st.any (fun p => p.1 == id)
  · rw [mergeEntry_eq_map st id inc h]
    unfold storedCounts
    rw [List.find?_map, bumpIfId_key]
    rcases hfind : st.find? (fun p => p.1 == id') with _ | q
    · rw [hfind]
      simp
    · have hq' : q.1 = id' := by simpa using List.find?_some hfind
      rw [hfind]
      simp [bumpIfId, hq', hne]
  · rw [mergeEntry_eq_append st id inc h]
    unfold storedCounts
    rw [List.find?_append]
    rcases hfind : st.find? (fun p => p.1 == id') with _ | q
    · rw [hfind]
      simp [Ne.symm hne]
    · rw [hfind]
      simp

theorem submittedCorrect_cons (e : String × ProgressCounts)
    (body : List (String × ProgressCounts)) (id : String) :
    submittedCorrect (e :: body) id =
      (if e.1 = id then e.2.correct else 0) + submittedCorrect body id := by
  unfold submittedCorrect
  by_cases h : e.1 = id <;> simp [h]

theorem submittedIncorrect_cons (e : String × ProgressCounts)
    (body : List (String × ProgressCounts)) (id : String) :
    submittedIncorrect (e :: body) id =
      (if e.1 = id then e.2.incorrect else 0) + submittedIncorrect body id := by
  unfold submittedIncorrect
  by_cases h : e.1 = id <;> simp [h]

theorem storedCounts_progressMerge (st : ProgressStore)
    (body : List (String × ProgressCounts)) (id : String) :
    storedCounts (progressMerge st body) id =
      ⟨(storedCounts st id).correct + submittedCorrect body id,
       (storedCounts st id).incorrect + submittedIncorrect body id⟩ := by
  induction body generalizing st with
  | nil =>
    simp [progressMerge, submittedCorrect, submittedIncorrect]
  | cons e rest ih =>
    have hstep : progressMerge st (e :: rest) =
        progressMerge (mergeEntry st e.1 e.2) rest := rfl
    rw [hstep, ih, submittedCorrect_cons, submittedIncorrect_cons]
    by_cases h : id = e.1
    · subst h
      rw [storedCounts_mergeEntry_self]
      simp only [if_pos rfl, if_true, ProgressCounts.mk.injEq]
      constructor <;> ring
    · rw [storedCounts_mergeEntry_other st e.1 id e.2 h]
      have : ¬ e.1 = id := fun hh => h hh.symm
      simp [this]

theorem storedCounts_applyMerges (st : ProgressStore)
    (bodies : List (List (String × ProgressCounts))) (id : String) :
    storedCounts (applyMerges st bodies) id =
      ⟨(storedCounts st id).correct + totalSubmittedCorrect bodies id,
       (storedCounts st id).incorrect + totalSubmittedIncorrect bodies id⟩ := by
  induction bodies generalizing st with
  | nil =>
    simp [applyMerges, totalSubmittedCorrect, totalSubmittedIncorrect]
  | cons b rest ih =>
    have hstep : applyMerges st (b :: rest) =
        applyMerges (progressMerge st b) rest := rfl
    rw [hstep, ih, storedCounts_progressMerge]
    unfold totalSubmittedCorrect totalSubmittedIncorrect
    simp only [List.map_cons, List.sum_cons, ProgressCounts.mk.injEq]
    constructor <;> ring

/-- C1: for every on-disk progress state and every sequence of progress-merge
POST bodies, the stored counts for each character after the sequence equal
the initial stored counts plus the sum of all submitted increments for that
character, and the final counts do not depend on the order of the merges. -/
theorem progress_merge_additive_order_independent (st : ProgressStore)
    (bodies bodies' : List (List (String × ProgressCounts))) (id : String)
    (hperm : bodies.Perm bodies') :
    storedCounts (applyMerges st bodies) id =
      ⟨(storedCounts st id).correct + totalSubmittedCorrect bodies id,
       (storedCounts st id).incorrect + totalSubmittedIncorrect bodies id⟩ ∧
    storedCounts (applyMerges st bodies) id =
      storedCounts (applyMerges st bodies') id := by
  refine ⟨storedCounts_applyMerges st bodies id, ?_⟩
  rw [storedCounts_applyMerges, storedCounts_applyMerges]
  have hc : totalSubmittedCorrect bodies id = totalSubmittedCorrect bodies' id :=
    (hperm.map (fun b => submittedCorrect b id)).sum_eq
  have hi : totalSubmittedIncorrect bodies id = totalSubmittedIncorrect bodies' id :=
    (hperm.map (fun b => submittedIncorrect b id)).sum_eq
  rw [hc, hi]

/-- Witness for C1 at a concrete store and a concrete pair of reordered
merge sequences. -/
theorem progress_merge_additive_order_independent_witness :
    storedCounts
        (applyMerges [("a", ⟨1, 2⟩)]
          [[("a", ⟨3, 1⟩)], [("a", ⟨0, 2⟩), ("b", ⟨1, 0⟩)]]) "a" =
      ⟨(storedCounts [("a", ⟨1, 2⟩)] "a").correct +
        totalSubmittedCorrect [[("a", ⟨3, 1⟩)], [("a", ⟨0, 2⟩), ("b", ⟨1, 0⟩)]] "a",
       (storedCounts [("a", ⟨1, 2⟩)] "a").incorrect +
        totalSubmittedIncorrect [[("a", ⟨3, 1⟩)], [("a", ⟨0, 2⟩), ("b", ⟨1, 0⟩)]] "a"⟩ ∧
    storedCounts
        (applyMerges [("a", ⟨1, 2⟩)]
          [[("a", ⟨3, 1⟩)], [("a", ⟨0, 2⟩), ("b", ⟨1, 0⟩)]]) "a" =
      storedCounts
        (applyMerges [("a", ⟨1, 2⟩)]
          [[("a", ⟨0, 2⟩), ("b", ⟨1, 0⟩)], [("a", ⟨3, 1⟩)]]) "a" :=
  progress_merge_additive_order_independent [("a", ⟨1, 2⟩)]
    [[("a", ⟨3, 1⟩)], [("a", ⟨0, 2⟩), ("b", ⟨1, 0⟩)]]
    [[("a", ⟨0, 2⟩), ("b", ⟨1, 0⟩)], [("a", ⟨3, 1⟩)]] "a" (by decide)

/-- C9 counterexample: the progress POST validates nothing about the request
body, so a body carrying a negative increment is accepted and decreases the
stored count.  With stored counts (5, 5) for "a", the body
`{"a": {correct: -3, incorrect: 0}}` leaves "a" with correct = 2 < 5. -/
theorem progress_monotone_counterexample :
    (storedCounts (progressMerge [("a", ⟨5, 5⟩)] [("a", ⟨-3, 0⟩)]) "a").correct <
      (storedCounts [("a", ⟨5, 5⟩)] "a").correct := by
  decide

/-- C9 (amended): for every request body all of whose increments are
non-negative, each character's stored correct and incorrect counts after the
merge are greater than or equal to their values before it. -/
theorem progress_merge_monotone_of_nonneg (st : ProgressStore)
    (body : List (String × ProgressCounts)) (id : String)
    (h : ∀ e ∈ body, 0 ≤ e.2.correct ∧ 0 ≤ e.2.incorrect) :
    (storedCounts st id).correct ≤ (storedCounts (progressMerge st body) id).correct ∧
    (storedCounts st id).incorrect ≤
      (storedCounts (progressMerge st body) id).incorrect := by
  rw [storedCounts_progressMerge]
  have hc : 0 ≤ submittedCorrect body id := by
    unfold submittedCorrect
    apply List.sum_nonneg
    intro x hx
    simp only [List.mem_map] at hx
    obtain ⟨e, he, rfl⟩ := hx
    exact (h e (List.mem_of_mem_filter he)).1
  have hi : 0 ≤ submittedIncorrect body id := by
    unfold submittedIncorrect
    apply List.sum_nonneg
    intro x hx
    simp only [List.mem_map] at hx
    obtain ⟨e, he, rfl⟩ := hx
    exact (h e (List.mem_of_mem_filter he)).2
  constructor <;> dsimp <;> omega

/-- Witness for the amended C9 at a concrete store and body. -/
theorem progress_merge_monotone_of_nonneg_witness :
    (∀ e ∈ [("a", (⟨2, 3⟩ : ProgressCounts))], 0 ≤ e.2.correct ∧ 0 ≤ e.2.incorrect) ∧
    ((storedCounts [("a", ⟨1, 0⟩)] "a").correct ≤
        (storedCounts (progressMerge [("a", ⟨1, 0⟩)] [("a", ⟨2, 3⟩)]) "a").correct ∧
      (storedCounts [("a", ⟨1, 0⟩)] "a").incorrect ≤
        (storedCounts (progressMerge [("a", ⟨1, 0⟩)] [("a", ⟨2, 3⟩)]) "a").incorrect) :=
  ⟨by decide,
   progress_merge_monotone_of_nonneg [("a", ⟨1, 0⟩)] [("a", ⟨2, 3⟩)] "a" (by decide)⟩

/-! ### Characters store (src/app/api/characters/route.ts)

A record of a user's `characters.csv`.  The POST handler reads the stored
records, filters the incoming batch against the set of already-stored glyph
values, appends the survivors, and reports added/skipped counts. -/

/-- One character record: id, glyph, pinyin, meaning, phrase. -/
structure CharRecord where
  id : String
  character : String
  pinyin : String
  meaning : String
  phrase : String
deriving DecidableEq

/-- The glyph value already stored for dedup purposes: the POST handler's
`existingCharSet` (route.ts line 113) is the set of `character` fields. -/
def existingGlyphs (existing : List CharRecord) : List String :=
  existing.map (fun c => c.character)

/-- The characters POST handler (route.ts lines 112-129): keep only incoming
records whose glyph is not already stored, append them, and return the new
store together with the added and skipped counts. -/
def charactersPost (existing newChars : List CharRecord) :
    List CharRecord × Nat × Nat :=
  let uniqueNewCharacters :=
    newChars.filter (fun c => !((existingGlyphs existing).contains c.character))
  (existing ++ uniqueNewCharacters, uniqueNewCharacters.length,
    newChars.length - uniqueNewCharacters.length)

/-- C2 counterexample: the dedup filter compares incoming records against the
stored glyph set only, never against each other, so a single batch holding
two records with the same (new) glyph "x" is appended whole and the store
ends up with two records for "x". -/
theorem characters_glyph_unique_counterexample :
    ¬ (((charactersPost []
          [⟨"1", "x", "p1", "m1", ""⟩, ⟨"2", "x", "p2", "m2", ""⟩]).1.map
        (fun c => c.character)).Nodup) := by
  decide

/-- C2 (amended): glyph uniqueness is preserved by a bulk-add whenever the
incoming batch itself contains no two records with the same glyph; the
handler guards only against glyphs already stored. -/
theorem characters_glyph_unique_of_batch_nodup (existing newChars : List CharRecord)
    (hex : (existing.map (fun c => c.character)).Nodup)
    (hnew : (newChars.map (fun c => c.character)).Nodup) :
    ((charactersPost existing newChars).1.map (fun c => c.character)).Nodup := by
  unfold charactersPost
  simp only [List.map_append]
  rw [List.nodup_append]
  refine ⟨hex, ?_, ?_⟩
  · exact hnew.sublist ((List.filter_sublist newChars).map (fun c => c.character))
  · intro g hg hg'
    simp only [List.mem_map] at hg'
    obtain ⟨c, hc, rfl⟩ := hg'
    have hmem : c.character ∉ existingGlyphs existing := by
      simpa using List.of_mem_filter hc
    exact hmem (by simpa [existingGlyphs] using hg)

/-- Witness for the amended C2 at a concrete store and batch. -/
theorem characters_glyph_unique_of_batch_nodup_witness :
    (([⟨"1", "甲", "a", "m", ""⟩] : List CharRecord).map
        (fun c => c.character)).Nodup ∧
    (([⟨"2", "乙", "b", "m", ""⟩, ⟨"3", "甲", "c", "m", ""⟩] :
        List CharRecord).map (fun c => c.character)).Nodup ∧
    ((charactersPost [⟨"1", "甲", "a", "m", ""⟩]
        [⟨"2", "乙", "b", "m", ""⟩, ⟨"3", "甲", "c", "m", ""⟩]).1.map
      (fun c => c.character)).Nodup :=
  ⟨by decide, by decide,
   characters_glyph_unique_of_batch_nodup [⟨"1", "甲", "a", "m", ""⟩]
     [⟨"2", "乙", "b", "m", ""⟩, ⟨"3", "甲", "c", "m", ""⟩]
     (by decide) (by decide)⟩

theorem charPost_filter_length (existing newChars : List CharRecord) :
    (newChars.filter (fun c => !((existingGlyphs existing).contains c.character))).length +
      (newChars.filter (fun c => (existingGlyphs existing).contains c.character)).length =
      newChars.length := by
  induction newChars with
  | nil => rfl
  | cons a t ih =>
    rw [List.filter_cons, List.filter_cons]
    by_cases h : (existingGlyphs existing).contains a.character = true
    · rw [if_neg (by rw [h]; simp), if_pos h]
      simp only [List.length_cons]
      omega
    · have h' : (existingGlyphs existing).contains a.character = false :=
        Bool.eq_false_iff.mpr h
      rw [if_pos (by rw [h']; rfl), if_neg h]
      simp only [List.length_cons]
      omega

/-- C4: when the incoming batch holds a record whose glyph is already stored,
the POST appends no record with that glyph, leaves the stored records (the
prefix of the result) unchanged, reports added as the count of appended
(genuinely new-glyph) records and skipped as the count of batch records whose
glyph was already stored, and added + skipped equals the batch size. -/
theorem characters_post_dedup (existing newChars : List CharRecord) (g : String)
    (hg : g ∈ existingGlyphs existing) :
    ((charactersPost existing newChars).1.take existing.length = existing) ∧
    (∀ c ∈ (charactersPost existing newChars).1.drop existing.length,
      c.character ≠ g) ∧
    ((charactersPost existing newChars).2.1 =
      (newChars.filter
        (fun c => !((existingGlyphs existing).contains c.character))).length) ∧
    ((charactersPost existing newChars).2.2 =
      (newChars.filter
        (fun c => (existingGlyphs existing).contains c.character)).length) ∧
    ((charactersPost existing newChars).2.1 + (charactersPost existing newChars).2.2 =
      newChars.length) := by
  have hsplit := charPost_filter_length existing newChars
  unfold charactersPost
  dsimp only
  refine ⟨List.take_left existing _, ?_, rfl, ?_, ?_⟩
  · rw [List.drop_left]
    intro c hc heq
    have hmem : ¬ ((existingGlyphs existing).contains c.character = true) := by
      simpa using List.of_mem_filter hc
    rw [heq] at hmem
    exact hmem (by simpa using hg)
  · omega
  · omega

/-- Witness for C4: the stored glyph "甲" reappears in a two-record batch; one
record is skipped, one appended. -/
theorem characters_post_dedup_witness :
    "甲" ∈ existingGlyphs [⟨"1", "甲", "a", "m", ""⟩] ∧
    (((charactersPost [⟨"1", "甲", "a", "m", ""⟩]
          [⟨"2", "甲", "b", "m", ""⟩, ⟨"3", "乙", "c", "m", ""⟩]).1.take 1 =
        [⟨"1", "甲", "a", "m", ""⟩]) ∧
      (∀ c ∈ (charactersPost [⟨"1", "甲", "a", "m", ""⟩]
          [⟨"2", "甲", "b", "m", ""⟩, ⟨"3", "乙", "c", "m", ""⟩]).1.drop 1,
        c.character ≠ "甲") ∧
      ((charactersPost [⟨"1", "甲", "a", "m", ""⟩]
          [⟨"2", "甲", "b", "m", ""⟩, ⟨"3", "乙", "c", "m", ""⟩]).2.1 =
        (([⟨"2", "甲", "b", "m", ""⟩, ⟨"3", "乙", "c", "m", ""⟩] :
            List CharRecord).filter
          (fun c =>
            !((existingGlyphs [⟨"1", "甲", "a", "m", ""⟩]).contains
                c.character))).length) ∧
      ((charactersPost [⟨"1", "甲", "a", "m", ""⟩]
          [⟨"2", "甲", "b", "m", ""⟩, ⟨"3", "乙", "c", "m", ""⟩]).2.2 =
        (([⟨"2", "甲", "b", "m", ""⟩, ⟨"3", "乙", "c", "m", ""⟩] :
            List CharRecord).filter
          (fun c =>
            (existingGlyphs [⟨"1", "甲", "a", "m", ""⟩]).contains
              c.character)).length) ∧
      ((charactersPost [⟨"1", "甲", "a", "m", ""⟩]
            [⟨"2", "甲", "b", "m", ""⟩, ⟨"3", "乙", "c", "m", ""⟩]).2.1 +
          (charactersPost [⟨"1", "甲", "a", "m", ""⟩]
            [⟨"2", "甲", "b", "m", ""⟩, ⟨"3", "乙", "c", "m", ""⟩]).2.2 =
        2)) :=
  ⟨by decide,
   characters_post_dedup [⟨"1", "甲", "a", "m", ""⟩]
     [⟨"2", "甲", "b", "m", ""⟩, ⟨"3", "乙", "c", "m", ""⟩] "甲" (by decide)⟩

/-! ### Quiz-history store (src/app/api/quiz-history/route.ts)

One row of `quiz-history.csv`.  The numeric fields are JS numbers; the app
only ever writes integers into them (Date.now(), counts, Math.round of the
accuracy), so they are modelled as integers. -/

/-- One quiz-history entry. -/
structure QuizSession where
  timestamp : Int
  quizType : String
  totalQuestions : Int
  correctAnswers : Int
  accuracy : Int
deriving DecidableEq

/-- The handler's `sort((a, b) => b.timestamp - a.timestamp)`: a stable sort
by timestamp descending (JS Array.prototype.sort is stable; an element sorts
before another when the comparator is non-positive, i.e. when its timestamp
is at least the other's). -/
def sortByTimestampDesc (history : List QuizSession) : List QuizSession :=
  history.mergeSort (fun a b => decide (b.timestamp ≤ a.timestamp))

/-- The quiz-history POST handler (route.ts lines 115-135): append the new
session; if more than 50 entries then exist, sort by timestamp descending
and keep the first 50 before writing back. -/
def quizHistoryPost (history : List QuizSession) (s : QuizSession) :
    List QuizSession :=
  let h := history ++ [s]
  if h.length > 50 then (sortByTimestampDesc h).take 50 else h

theorem sortByTimestampDesc_perm (history : List QuizSession) :
    (sortByTimestampDesc history).Perm history :=
  List.mergeSort_perm history _

theorem sortByTimestampDesc_pairwise (history : List QuizSession) :
    (sortByTimestampDesc history).Pairwise
      (fun a b => decide (b.timestamp ≤ a.timestamp) = true) := by
  apply List.sorted_mergeSort
  · intro a b c hab hbc
    simp only [decide_eq_true_eq] at hab hbc ⊢
    omega
  · intro a b
    rcases Int.le_total b.timestamp a.timestamp with h | h <;> simp [h]

/-- C3: starting from a store of at most 50 entries, a quiz-history POST
leaves at most 50 entries; when the store already held 50, exactly one entry
is dropped from the 51, its timestamp is a minimum among the kept entries,
and an entry that is the strict-oldest (and occurs once) is absent from the
result. -/
theorem quiz_history_capped (history : List QuizSession) (s : QuizSession)
    (_hle : history.length ≤ 50) :
    (quizHistoryPost history s).length ≤ 50 ∧
    (history.length = 50 →
      ∃ dropped,
        (history ++ [s]).Perm (dropped :: quizHistoryPost history s) ∧
        (∀ e ∈ quizHistoryPost history s, dropped.timestamp ≤ e.timestamp) ∧
        (∀ e₀ ∈ history ++ [s],
          (∀ e' ∈ history ++ [s], e' = e₀ ∨ e₀.timestamp < e'.timestamp) →
          (history ++ [s]).count e₀ = 1 →
          e₀ ∉ quizHistoryPost history s)) := by
  constructor
  · unfold quizHistoryPost
    by_cases hc : (history ++ [s]).length > 50
    · rw [if_pos hc]
      simp [List.length_take]
    · rw [if_neg hc]
      omega
  · intro h50
    have hlen : (history ++ [s]).length = 51 := by simp [h50]
    have hgt : (history ++ [s]).length > 50 := by omega
    have hres : quizHistoryPost history s =
        (sortByTimestampDesc (history ++ [s])).take 50 := by
      unfold quizHistoryPost
      rw [if_pos hgt]
    have hLlen : (sortByTimestampDesc (history ++ [s])).length = 51 := by
      unfold sortByTimestampDesc
      rw [List.length_mergeSort]
      exact hlen
    have hdroplen : ((sortByTimestampDesc (history ++ [s])).drop 50).length = 1 := by
      rw [List.length_drop, hLlen]
    obtain ⟨d, hd⟩ := List.length_eq_one.mp hdroplen
    have hsplit : sortByTimestampDesc (history ++ [s]) =
        (sortByTimestampDesc (history ++ [s])).take 50 ++ [d] := by
      conv_lhs => rw [← List.take_append_drop 50 (sortByTimestampDesc (history ++ [s]))]
      rw [hd]
    have hperm : (history ++ [s]).Perm (d :: quizHistoryPost history s) := by
      rw [hres]
      refine ((sortByTimestampDesc_perm (history ++ [s])).symm.trans ?_).trans
        (List.perm_append_singleton d _)
      exact List.Perm.of_eq hsplit
    have hpair := sortByTimestampDesc_pairwise (history ++ [s])
    rw [hsplit] at hpair
    have hcross := (List.pairwise_append.mp hpair).2.2
    have hmin : ∀ e ∈ quizHistoryPost history s, d.timestamp ≤ e.timestamp := by
      intro e he
      have := hcross e (by rw [hres] at he; exact he) d (by simp)
      simpa using this
    refine ⟨d, hperm, hmin, ?_⟩
    intro e₀ he₀ hstrict hcount hin
    have hd_mem : d ∈ history ++ [s] := hperm.mem_iff.mpr (by simp)
    have hdts : d.timestamp ≤ e₀.timestamp := hmin e₀ hin
    have hde : d = e₀ := by
      rcases hstrict d hd_mem with h | h
      · exact h
      · omega
    have hcnt : (history ++ [s]).count e₀ = (d :: quizHistoryPost history s).count e₀ :=
      hperm.count_eq e₀
    rw [hde] at hcnt
    rw [List.count_cons_self] at hcnt
    have : 0 < (quizHistoryPost history s).count e₀ := List.count_pos_iff.mpr hin
    omega

/-- A concrete 50-entry history with timestamps 1..50, for the C3 witness. -/
def fiftySessions : List QuizSession :=
  (List.range 50).map (fun i => ⟨(i : Int) + 1, "Read", 5, 4, 80⟩)

/-- The 51st session appended in the C3 witness. -/
def session51 : QuizSession := ⟨51, "Read", 5, 4, 80⟩

/-- Witness for C3 at a store that already holds 50 entries. -/
theorem quiz_history_capped_witness :
    fiftySessions.length ≤ 50 ∧
    ((quizHistoryPost fiftySessions session51).length ≤ 50 ∧
      (fiftySessions.length = 50 →
        ∃ dropped,
          (fiftySessions ++ [session51]).Perm
            (dropped :: quizHistoryPost fiftySessions session51) ∧
          (∀ e ∈ quizHistoryPost fiftySessions session51,
            dropped.timestamp ≤ e.timestamp) ∧
          (∀ e₀ ∈ fiftySessions ++ [session51],
            (∀ e' ∈ fiftySessions ++ [session51],
              e' = e₀ ∨ e₀.timestamp < e'.timestamp) →
            (fiftySessions ++ [session51]).count e₀ = 1 →
            e₀ ∉ quizHistoryPost fiftySessions session51))) :=
  ⟨by decide, quiz_history_capped fiftySessions session51 (by decide)⟩

/-! ### Dashboard aggregator (src/components/progress-dashboard.tsx)

The dashboard fetches the characters list and the progress mapping and
computes per-character and overall accuracy.  JS `Math.round` rounds to the
nearest integer with halves toward positive infinity. -/

/-- JS `Math.round`: nearest integer, halves toward positive infinity. -/
def mathRound (q : ℚ) : Int := ⌊q + 1 / 2⌋

/-- Sum of `p.correct + p.incorrect` over `Object.values(progress)`
(progress-dashboard.tsx line 67). -/
def totalAttemptsOf (progress : ProgressStore) : Int :=
  (progress.map (fun p => p.2.correct + p.2.incorrect)).sum

/-- Sum of `p.correct` over `Object.values(progress)` (line 68). -/
def totalCorrectOf (progress : ProgressStore) : Int :=
  (progress.map (fun p => p.2.correct)).sum

/-- `overallStats.overallAccuracy` (lines 69-76): the attempt-weighted ratio,
0 when the total attempt count is not positive. -/
def overallAccuracy (progress : ProgressStore) : Int :=
  if totalAttemptsOf progress > 0 then
    mathRound ((totalCorrectOf progress : ℚ) / (totalAttemptsOf progress : ℚ) * 100)
  else 0

/-- The per-character accuracy of the dashboard's `stats` (lines 52-63):
look the character id up in the progress mapping, defaulting to zero counts,
and round correct/total as a percentage. -/
def charAccuracy (progress : ProgressStore) (id : String) : Int :=
  let c := storedCounts progress id
  let total := c.correct + c.incorrect
  if total > 0 then mathRound ((c.correct : ℚ) / (total : ℚ) * 100) else 0

theorem mathRound_eq (q : ℚ) (n : Int) (h1 : (n : ℚ) ≤ q + 1 / 2)
    (h2 : q + 1 / 2 < n + 1) : mathRound q = n := by
  unfold mathRound
  exact Int.floor_eq_iff.mpr ⟨h1, h2⟩

/-- The progress mapping of the spec's worked example: character A with
correct=8, incorrect=2 and character B with no attempts. -/
def scenarioProgress : ProgressStore := [("A", ⟨8, 2⟩), ("B", ⟨0, 0⟩)]

/-- C5: dashboard overall accuracy is round(Σcorrect / Σattempts × 100), is 0
when the attempt total is 0, and is attempt-weighted: in the A(8,2)/B(0,0)
example A shows 80, B shows 0, overall shows 80 — not the 40 a per-character
average would give. -/
theorem dashboard_overall_accuracy (progress : ProgressStore) :
    (totalAttemptsOf progress = 0 → overallAccuracy progress = 0) ∧
    (0 < totalAttemptsOf progress →
      overallAccuracy progress =
        mathRound ((totalCorrectOf progress : ℚ) /
          (totalAttemptsOf progress : ℚ) * 100)) ∧
    charAccuracy scenarioProgress "A" = 80 ∧
    charAccuracy scenarioProgress "B" = 0 ∧
    overallAccuracy scenarioProgress = 80 ∧
    overallAccuracy scenarioProgress ≠
      (charAccuracy scenarioProgress "A" + charAccuracy scenarioProgress "B") / 2 := by
  have hA : storedCounts scenarioProgress "A" = ⟨8, 2⟩ := rfl
  have hB : storedCounts scenarioProgress "B" = ⟨0, 0⟩ := rfl
  have hAcc : charAccuracy scenarioProgress "A" = 80 := by
    unfold charAccuracy
    rw [hA]
    norm_num
    apply mathRound_eq
    · norm_num
    · norm_num
  have hBcc : charAccuracy scenarioProgress "B" = 0 := by
    unfold charAccuracy
    rw [hB]
    norm_num
  have hTA : totalAttemptsOf scenarioProgress = 10 := rfl
  have hTC : totalCorrectOf scenarioProgress = 8 := rfl
  have hOv : overallAccuracy scenarioProgress = 80 := by
    unfold overallAccuracy
    rw [hTA, hTC]
    norm_num
    apply mathRound_eq
    · norm_num
    · norm_num
  refine ⟨?_, ?_, hAcc, hBcc, hOv, ?_⟩
  · intro h
    unfold overallAccuracy
    rw [h]
    norm_num
  · intro h
    unfold overallAccuracy
    rw [if_pos h]
  · rw [hOv, hAcc, hBcc]
    norm_num

/-- Witness for C5, discharging the zero-attempt hypothesis on the empty
mapping and the positive-attempt hypothesis on the worked example. -/
theorem dashboard_overall_accuracy_witness :
    (totalAttemptsOf [] = 0 ∧ overallAccuracy [] = 0) ∧
    (0 < totalAttemptsOf scenarioProgress ∧
      overallAccuracy scenarioProgress =
        mathRound ((totalCorrectOf scenarioProgress : ℚ) /
          (totalAttemptsOf scenarioProgress : ℚ) * 100)) :=
  ⟨⟨by decide, (dashboard_overall_accuracy []).1 (by decide)⟩,
   ⟨by decide, (dashboard_overall_accuracy scenarioProgress).2.1 (by decide)⟩⟩

/-! ### GET error handling (progress and characters routes)

Both GET handlers run inside try/catch: a missing file (`fs.existsSync`
false) returns the empty store, a successful read returns the parsed
content, and a throwing read lands in the catch block, which returns a 500
error response. -/

/-- What a handler observes when reading a store file: absent, readable with
some parsed content, or a read that throws. -/
inductive FileRead (α : Type) where
  | missing
  | readable (store : α)
  | failure
deriving DecidableEq

/-- An HTTP response: a JSON value, or an error with its status code. -/
inductive ApiResult (α : Type) where
  | ok (value : α)
  | error (status : Nat)
deriving DecidableEq

/-- The progress GET handler (progress/route.ts lines 65-86): 401 without a
session, empty mapping when the file is missing, parsed content on success,
500 from the catch block when the read throws. -/
def progressGET (user : Option String) (file : FileRead ProgressStore) :
    ApiResult ProgressStore :=
  match user with
  | none => .error 401
  | some _ =>
    match file with
    | .missing => .ok []
    | .readable store => .ok store
    | .failure => .error 500

/-- The characters GET handler (characters/route.ts lines 69-90), same
shape: 401, empty list, parsed content, or 500 from the catch block. -/
def charactersGET (user : Option String) (file : FileRead (List CharRecord)) :
    ApiResult (List CharRecord) :=
  match user with
  | none => .error 401
  | some _ =>
    match file with
    | .missing => .ok []
    | .readable store => .ok store
    | .failure => .error 500

/-- C6 counterexample: an authenticated GET whose file read throws does not
return the empty result of the missing-file path; it returns a 500 error. -/
theorem get_read_failure_counterexample :
    progressGET (some "u") FileRead.failure ≠
      progressGET (some "u") FileRead.missing := by
  decide

/-- C6 (amended): only a missing data file is treated as the empty store; a
filesystem read failure is surfaced as a 500 error response on both the
progress GET and the characters GET, so the two cases are distinguished. -/
theorem get_read_failure_surfaces_500 (u : String) (ps : ProgressStore)
    (cs : List CharRecord) :
    progressGET (some u) .failure = .error 500 ∧
    progressGET (some u) .missing = .ok [] ∧
    progressGET (some u) (.readable ps) = .ok ps ∧
    charactersGET (some u) .failure = .error 500 ∧
    charactersGET (some u) .missing = .ok [] ∧
    charactersGET (some u) (.readable cs) = .ok cs :=
  ⟨rfl, rfl, rfl, rfl, rfl, rfl⟩

/-! ### Recognition quiz options (src/components/quiz-mode.tsx) -/

/-- The option-collecting loop of `generatePinyinOptions` (quiz-mode.tsx
lines 65-70): walk the shuffled other characters, stop once 4 options exist,
and push a character's pinyin only when it is not already among the
options. -/
def pinyinOptionsLoop (options : List String)
    (shuffledOthers : List CharRecord) : List String :=
  match shuffledOthers with
  | [] => options
  | c :: rest =>
    if options.length ≥ 4 then options
    else if options.contains c.pinyin then pinyinOptionsLoop options rest
    else pinyinOptionsLoop (options ++ [c.pinyin]) rest

/-- `generatePinyinOptions` (lines 57-73) before its final display shuffle:
start from the correct pinyin, add distractor pinyins from the shuffled
other characters, slice to 4.  The trailing `sort(() => Math.random() - 0.5)`
is an arbitrary permutation, so theorems quantify over any permutation of
this list. -/
def generatePinyinOptions (correctChar : CharRecord)
    (shuffledOthers : List CharRecord) : List String :=
  (pinyinOptionsLoop [correctChar.pinyin] shuffledOthers).take 4

/-- The distractor source pool `allCharacters.filter(c => c.id !==
correctChar.id)` (line 62). -/
def otherCharsOf (pool : List CharRecord) (correctChar : CharRecord) :
    List CharRecord :=
  pool.filter (fun c => !(c.id == correctChar.id))

/-- `handleRecognitionAnswer` grading (lines 225-230): exact string equality
against the target's pinyin. -/
def gradeRecognition (selectedPinyinOption : String) (target : CharRecord) :
    Bool :=
  selectedPinyinOption == target.pinyin

theorem pinyinOptionsLoop_spec (shuffledOthers : List CharRecord) :
    ∀ options : List String, options.Nodup → options.length ≤ 4 →
    ∃ extra, pinyinOptionsLoop options shuffledOthers = options ++ extra ∧
      (options ++ extra).Nodup ∧ (options ++ extra).length ≤ 4 ∧
      ∀ s ∈ extra, ∃ c ∈ shuffledOthers, s = c.pinyin := by
  induction shuffledOthers with
  | nil =>
    intro options hnd hlen
    exact ⟨[], by simp [pinyinOptionsLoop], by simpa, by simpa, by simp⟩
  | cons c rest ih =>
    intro options hnd hlen
    unfold pinyinOptionsLoop
    by_cases h4 : options.length ≥ 4
    · rw [if_pos h4]
      exact ⟨[], by simp, by simpa, by simpa, by simp⟩
    · rw [if_neg h4]
      by_cases hcont : options.contains c.pinyin
      · rw [if_pos hcont]
        obtain ⟨extra, heq, hnd', hlen', hsrc⟩ := ih options hnd hlen
        refine ⟨extra, heq, hnd', hlen', ?_⟩
        intro s hs
        obtain ⟨c', hc', he⟩ := hsrc s hs
        exact ⟨c', List.mem_cons_of_mem _ hc', he⟩
      · rw [if_neg hcont]
        have hnotmem : c.pinyin ∉ options := by simpa using hcont
        have hnd2 : (options ++ [c.pinyin]).Nodup := by
          rw [List.nodup_append]
          exact ⟨hnd, List.nodup_singleton _,
            fun a ha hb => by simp at hb; subst hb; exact hnotmem ha⟩
        have hlen2 : (options ++ [c.pinyin]).length ≤ 4 := by
          rw [List.length_append]
          simp only [List.length_singleton]
          omega
        obtain ⟨extra, heq, hnd', hlen', hsrc⟩ := ih (options ++ [c.pinyin]) hnd2 hlen2
        refine ⟨c.pinyin :: extra, ?_, ?_, ?_, ?_⟩
        · rw [heq, List.append_assoc]
          rfl
        · rw [← List.singleton_append, ← List.append_assoc]
          exact hnd'
        · rw [← List.singleton_append, ← List.append_assoc]
          exact hlen'
        · intro s hs
          rcases List.mem_cons.mp hs with h | h
          · exact ⟨c, List.mem_cons_self c rest, h⟩
          · obtain ⟨c', hc', he⟩ := hsrc s h
            exact ⟨c', List.mem_cons_of_mem _ hc', he⟩

/-- C7: for any shuffle of the distractor pool and any display order, the
recognition options contain the target's pinyin, contain no duplicate
strings, number at most 4, draw every distractor from a pool character other
than the target, and an answer is graded correct exactly when the selected
string equals the target's pinyin. -/
theorem recognition_options_spec (pool : List CharRecord)
    (correctChar : CharRecord) (shuffled : List CharRecord)
    (displayed : List String)
    (hshuf : shuffled.Perm (otherCharsOf pool correctChar))
    (hdisp : displayed.Perm (generatePinyinOptions correctChar shuffled)) :
    correctChar.pinyin ∈ displayed ∧
    displayed.Nodup ∧
    displayed.length ≤ 4 ∧
    (∀ s ∈ displayed, s ≠ correctChar.pinyin →
      ∃ c ∈ pool, c.id ≠ correctChar.id ∧ c.pinyin = s) ∧
    (∀ s : String, gradeRecognition s correctChar = true ↔
      s = correctChar.pinyin) := by
  obtain ⟨extra, heq, hnd, hlen, hsrc⟩ :=
    pinyinOptionsLoop_spec shuffled [correctChar.pinyin] (by simp) (by simp)
  have hgen : generatePinyinOptions correctChar shuffled =
      [correctChar.pinyin] ++ extra := by
    unfold generatePinyinOptions
    rw [heq]
    exact List.take_of_length_le hlen
  refine ⟨?_, ?_, ?_, ?_, ?_⟩
  · apply hdisp.mem_iff.mpr
    rw [hgen]
    simp
  · exact hdisp.nodup_iff.mpr (hgen ▸ hnd)
  · rw [hdisp.length_eq, hgen]
    simpa using hlen
  · intro s hs hne
    have hmem : s ∈ [correctChar.pinyin] ++ extra := by
      rw [← hgen]
      exact hdisp.mem_iff.mp hs
    rcases List.mem_append.mp hmem with h | h
    · simp at h
      exact absurd h hne
    · obtain ⟨c, hc, he⟩ := hsrc s h
      have hc' : c ∈ otherCharsOf pool correctChar := hshuf.mem_iff.mp hc
      have hc'' := List.mem_filter.mp hc'
      refine ⟨c, hc''.1, ?_, he.symm⟩
      simpa using hc''.2
  · intro s
    unfold gradeRecognition
    exact beq_iff_eq

/-- Witness for C7 with a two-character pool and identity shuffles. -/
theorem recognition_options_spec_witness :
    ([⟨"2", "乙", "yi", "second", ""⟩] : List CharRecord).Perm
      (otherCharsOf [⟨"1", "甲", "jia", "first", ""⟩, ⟨"2", "乙", "yi", "second", ""⟩]
        ⟨"1", "甲", "jia", "first", ""⟩) ∧
    (generatePinyinOptions ⟨"1", "甲", "jia", "first", ""⟩
        [⟨"2", "乙", "yi", "second", ""⟩]).Perm
      (generatePinyinOptions ⟨"1", "甲", "jia", "first", ""⟩
        [⟨"2", "乙", "yi", "second", ""⟩]) ∧
    ("jia" ∈ generatePinyinOptions ⟨"1", "甲", "jia", "first", ""⟩
        [⟨"2", "乙", "yi", "second", ""⟩] ∧
      (generatePinyinOptions ⟨"1", "甲", "jia", "first", ""⟩
        [⟨"2", "乙", "yi", "second", ""⟩]).Nodup ∧
      (generatePinyinOptions ⟨"1", "甲", "jia", "first", ""⟩
        [⟨"2", "乙", "yi", "second", ""⟩]).length ≤ 4 ∧
      (∀ s ∈ generatePinyinOptions ⟨"1", "甲", "jia", "first", ""⟩
          [⟨"2", "乙", "yi", "second", ""⟩], s ≠ "jia" →
        ∃ c ∈ ([⟨"1", "甲", "jia", "first", ""⟩, ⟨"2", "乙", "yi", "second", ""⟩] :
            List CharRecord),
          c.id ≠ (⟨"1", "甲", "jia", "first", ""⟩ : CharRecord).id ∧
          c.pinyin = s) ∧
      (∀ s : String,
        gradeRecognition s ⟨"1", "甲", "jia", "first", ""⟩ = true ↔ s = "jia")) :=
  ⟨by decide, List.Perm.refl _,
   recognition_options_spec
     [⟨"1", "甲", "jia", "first", ""⟩, ⟨"2", "乙", "yi", "second", ""⟩]
     ⟨"1", "甲", "jia", "first", ""⟩ [⟨"2", "乙", "yi", "second", ""⟩]
     (generatePinyinOptions ⟨"1", "甲", "jia", "first", ""⟩
       [⟨"2", "乙", "yi", "second", ""⟩])
     (by decide) (List.Perm.refl _)⟩

/-! ### Auth endpoint (src/app/api/auth/route.ts)

The register action validates the fields in source order (missing/falsy
fields, username length 2-20, password length at least 4, username charset
`[a-zA-Z0-9_]`), rejects an already-taken username, and otherwise appends
the user to users.csv and ensures an empty per-user data directory.  JS
falsy-string checks are modelled as equality with "", and the regex test
over the username as a predicate over its character list.  The SHA-256
password hash is opaque to every claim, so the handler is parameterized by
the hash function. -/

/-- The character class of the username regex `/^[a-zA-Z0-9_]+$/`. -/
def isUsernameChar (c : Char) : Bool :=
  decide (('a' ≤ c ∧ c ≤ 'z') ∨ ('A' ≤ c ∧ c ≤ 'Z') ∨ ('0' ≤ c ∧ c ≤ '9') ∨ c = '_')

/-- The parsed users.csv: username to password hash, in insertion order. -/
abbrev UserStore := List (String × String)

/-- Outcome of `POST {action: "register"}`: one constructor per distinct
response of the handler.  The first four are the 400 validation responses;
`success` carries the new user store and the per-user data directories
after `ensureUserDir`. -/
inductive RegisterResult where
  | missingFields
  | badUsernameLength
  | shortPassword
  | badUsernameCharset
  | duplicateUser
  | success (users : UserStore) (userDirs : List String)
deriving DecidableEq

/-- The register action (auth/route.ts lines 65-106). -/
def registerPost (hash : String → String) (users : UserStore)
    (userDirs : List String) (username password : String) : RegisterResult :=
  if username = "" ∨ password = "" then .missingFields
  else if username.length < 2 ∨ 20 < username.length then .badUsernameLength
  else if password.length < 4 then .shortPassword
  else if ¬ username.data.all isUsernameChar then .badUsernameCharset
  else if users.any (fun q => q.1 == username) then .duplicateUser
  else .success (users ++ [(username, hash password)])
    (if userDirs.contains username then userDirs else userDirs ++ [username])

/-- Whether a register outcome is one of the 400 validation responses. -/
def isValidationError : RegisterResult → Bool
  | .missingFields => true
  | .badUsernameLength => true
  | .shortPassword => true
  | .badUsernameCharset => true
  | _ => false

/-- Username validity per the regex `[A-Za-z0-9_]{2,20}`. -/
def validUsername (u : String) : Prop :=
  2 ≤ u.length ∧ u.length ≤ 20 ∧ u.data.all isUsernameChar = true

/-- Username already present in the user store. -/
def usernameTaken (users : UserStore) (u : String) : Prop :=
  ∃ q ∈ users, q.1 = u

theorem string_length_eq_data_length (s : String) : s.length = s.data.length := rfl

/-- C8: a register request fails with a validation error exactly when the
username falls outside `[A-Za-z0-9_]{2,20}` or the password is shorter than
4; fails with the duplicate-user error exactly when the input is valid but
the username is taken; otherwise succeeds, appending the user record and
ensuring an empty per-user data area.  Scenario: "ab"/"pass" succeeds, "a"
fails validation, and re-registering "ab" fails as duplicate. -/
theorem register_contract (hash : String → String) (users : UserStore)
    (userDirs : List String) (u p : String) :
    (isValidationError (registerPost hash users userDirs u p) = true ↔
      ¬ (validUsername u ∧ 4 ≤ p.length)) ∧
    (registerPost hash users userDirs u p = .duplicateUser ↔
      (validUsername u ∧ 4 ≤ p.length ∧ usernameTaken users u)) ∧
    ((validUsername u ∧ 4 ≤ p.length ∧ ¬ usernameTaken users u) →
      registerPost hash users userDirs u p =
        .success (users ++ [(u, hash p)])
          (if userDirs.contains u then userDirs else userDirs ++ [u])) ∧
    registerPost hash [] [] "ab" "pass" = .success [("ab", hash "pass")] ["ab"] ∧
    isValidationError (registerPost hash [] [] "a" "pass") = true ∧
    registerPost hash [("ab", hash "pass")] ["ab"] "ab" "pass" = .duplicateUser := by
  have htaken : (users.any (fun q => q.1 == u) = true) ↔ usernameTaken users u := by
    rw [List.any_eq_true]
    unfold usernameTaken
    simp
  refine ⟨?_, ?_, ?_, rfl, rfl, rfl⟩ <;>
  · by_cases h1 : u = "" ∨ p = ""
    · have hnv : ¬ (validUsername u ∧ 4 ≤ p.length) := by
        rintro ⟨⟨h2le, _, _⟩, hp4⟩
        rcases h1 with rfl | rfl
        · rw [string_length_eq_data_length] at h2le
          simp at h2le
        · rw [string_length_eq_data_length] at hp4
          simp at hp4
      have e : registerPost hash users userDirs u p = .missingFields := by
        unfold registerPost
        rw [if_pos h1]
      rw [e]
      first
        | exact iff_of_true rfl hnv
        | (refine iff_of_false (by simp) ?_; rintro ⟨hv, hp, _⟩; exact hnv ⟨hv, hp⟩)
        | (rintro ⟨hv, hp, _⟩; exact absurd ⟨hv, hp⟩ hnv)
    · by_cases h2 : u.length < 2 ∨ 20 < u.length
      · have hnv : ¬ (validUsername u ∧ 4 ≤ p.length) := by
          rintro ⟨⟨h2le, h20, _⟩, _⟩
          omega
        have e : registerPost hash users userDirs u p = .badUsernameLength := by
          unfold registerPost
          rw [if_neg h1, if_pos h2]
        rw [e]
        first
          | exact iff_of_true rfl hnv
          | (refine iff_of_false (by simp) ?_; rintro ⟨hv, hp, _⟩; exact hnv ⟨hv, hp⟩)
          | (rintro ⟨hv, hp, _⟩; exact absurd ⟨hv, hp⟩ hnv)
      · by_cases h3 : p.length < 4
        · have hnv : ¬ (validUsername u ∧ 4 ≤ p.length) := by
            rintro ⟨_, hp4⟩
            omega
          have e : registerPost hash users userDirs u p = .shortPassword := by
            unfold registerPost
            rw [if_neg h1, if_neg h2, if_pos h3]
          rw [e]
          first
            | exact iff_of_true rfl hnv
            | (refine iff_of_false (by simp) ?_; rintro ⟨hv, hp, _⟩; exact hnv ⟨hv, hp⟩)
            | (rintro ⟨hv, hp, _⟩; exact absurd ⟨hv, hp⟩ hnv)
        · by_cases h4 : u.data.all isUsernameChar
          · have hvalid : validUsername u ∧ 4 ≤ p.length := by
              push_neg at h2
              refine ⟨⟨h2.1, h2.2, h4⟩, by omega⟩
            by_cases h5 : users.any (fun q => q.1 == u)
            · have e : registerPost hash users userDirs u p = .duplicateUser := by
                unfold registerPost
                rw [if_neg h1, if_neg h2, if_neg h3, if_neg (not_not_intro h4),
                  if_pos h5]
              rw [e]
              first
                | exact iff_of_false (by simp [isValidationError])
                    (not_not_intro hvalid)
                | exact iff_of_true rfl ⟨hvalid.1, hvalid.2, htaken.mp h5⟩
                | (rintro ⟨_, _, hnt⟩; exact absurd (htaken.mp h5) hnt)
            · have e : registerPost hash users userDirs u p =
                  .success (users ++ [(u, hash p)])
                    (if userDirs.contains u then userDirs else userDirs ++ [u]) := by
                unfold registerPost
                rw [if_neg h1, if_neg h2, if_neg h3, if_neg (not_not_intro h4),
                  if_neg h5]
              rw [e]
              first
                | exact iff_of_false (by simp [isValidationError])
                    (not_not_intro hvalid)
                | (refine iff_of_false (by simp) ?_
                   rintro ⟨_, _, ht⟩
                   exact h5 (htaken.mpr ht))
                | (intro _; rfl)
          · have hnv : ¬ (validUsername u ∧ 4 ≤ p.length) := by
              rintro ⟨⟨_, _, hall⟩, _⟩
              exact h4 hall
            have e : registerPost hash users userDirs u p = .badUsernameCharset := by
              unfold registerPost
              rw [if_neg h1, if_neg h2, if_neg h3, if_pos h4]
            rw [e]
            first
              | exact iff_of_true rfl hnv
              | (refine iff_of_false (by simp) ?_; rintro ⟨hv, hp, _⟩; exact hnv ⟨hv, hp⟩)
              | (rintro ⟨hv, hp, _⟩; exact absurd ⟨hv, hp⟩ hnv)

/-- Witness for C8: the success path applied with the identity hash on the
empty user store, matching the spec scenario. -/
theorem register_contract_witness :
    (validUsername "ab" ∧ 4 ≤ "pass".length ∧ ¬ usernameTaken [] "ab") ∧
    registerPost (fun s => s) [] [] "ab" "pass" =
      .success [("ab", "pass")] ["ab"] :=
  ⟨⟨⟨by decide, by decide, by decide⟩, by decide,
    by rintro ⟨q, hq, _⟩; simp at hq⟩,
   (register_contract (fun s => s) [] [] "ab" "pass").2.2.1
     ⟨⟨by decide, by decide, by decide⟩, by decide,
      by rintro ⟨q, hq, _⟩; simp at hq⟩⟩


/-! ### Session cookie mismatch (quiz-history vs auth)

The auth endpoint stores the session under cookie key "user" (auth/route.ts
lines 98-105 and 116-122), and the progress and characters routes read
`cookies["user"]`.  The quiz-history route instead parses the cookie header
with `split("; ")` and `split("=")`, builds an object with
`Object.fromEntries`, and reads `cookies.username` (quiz-history/route.ts
lines 5-17).  Cookie-header strings are modelled as character lists. -/

/-- JS `header.split("; ")`: split at each occurrence of the two-character
separator, scanning left to right. -/
def splitSemiSpace : List Char → List (List Char)
  | [] => [[]]
  | [c] => [[c]]
  | c₁ :: c₂ :: rest =>
    if c₁ = ';' ∧ c₂ = ' ' then [] :: splitSemiSpace rest
    else
      match splitSemiSpace (c₂ :: rest) with
      | [] => [[c₁]]
      | h :: t => (c₁ :: h) :: t

/-- JS `c.split("=")`. -/
def splitEq : List Char → List (List Char)
  | [] => [[]]
  | c :: rest =>
    if c = '=' then [] :: splitEq rest
    else
      match splitEq rest with
      | [] => [[c]]
      | h :: t => (c :: h) :: t

/-- JS `values.join("=")` for the `[key, ...values]` destructuring. -/
def joinEq (values : List (List Char)) : List Char :=
  List.intercalate ['='] values

/-- One cookie fragment to its `[key, values.join("=")]` pair
(quiz-history/route.ts lines 10-13). -/
def parseCookiePair (cs : List Char) : List Char × List Char :=
  match splitEq cs with
  | [] => ([], [])
  | key :: values => (key, joinEq values)

/-- `getUsername` of the quiz-history route (lines 5-17):
`Object.fromEntries` keeps the last pair for a repeated key, and the final
`cookies.username || null` maps an absent or empty value to null. -/
def quizHistoryUsername (cookieHeader : Option (List Char)) :
    Option (List Char) :=
  match cookieHeader with
  | none => none
  | some h =>
    let pairs := (splitSemiSpace h).map parseCookiePair
    match pairs.reverse.find? (fun q => q.1 == "username".toList) with
    | none => none
    | some q => if q.2 = [] then none else some q.2

/-- The session cookie the auth endpoint sets on successful login or
registration (auth/route.ts lines 98-105): key "user", value the
username. -/
def authSessionCookie (username : List Char) : List Char × List Char :=
  ("user".toList, username)

/-- The cookie header a client sends when its jar holds exactly one
cookie. -/
def cookieHeaderOf (c : List Char × List Char) : List Char :=
  c.1 ++ '=' :: c.2

/-- The quiz-history GET handler's response (quiz-history/route.ts lines
74-101): 401 when `getUsername` yields null, otherwise the newest `limit`
entries. -/
def quizHistoryGET (cookieHeader : Option (List Char))
    (history : List QuizSession) (limit : Nat) :
    ApiResult (List QuizSession) :=
  match quizHistoryUsername cookieHeader with
  | none => .error 401
  | some _ => .ok ((sortByTimestampDesc history).take limit)

/-- The quiz-history POST handler's response (lines 105-142): 401 when
`getUsername` yields null, otherwise success with the capped store. -/
def quizHistoryPOST (cookieHeader : Option (List Char))
    (history : List QuizSession) (s : QuizSession) :
    ApiResult (List QuizSession) :=
  match quizHistoryUsername cookieHeader with
  | none => .error 401
  | some _ => .ok (quizHistoryPost history s)

theorem splitSemiSpace_of_no_semi :
    ∀ cs : List Char, ';' ∉ cs → splitSemiSpace cs = [cs]
  | [], _ => rfl
  | [_], _ => rfl
  | c₁ :: c₂ :: rest, h => by
    have h₁ : ¬ (c₁ = ';' ∧ c₂ = ' ') := by
      rintro ⟨rfl, -⟩
      exact h (List.mem_cons_self _ _)
    have hrest : ';' ∉ c₂ :: rest := fun hh => h (List.mem_cons_of_mem _ hh)
    have ih := splitSemiSpace_of_no_semi (c₂ :: rest) hrest
    unfold splitSemiSpace
    rw [if_neg h₁, ih]

theorem splitEq_append (ks v : List Char) (hk : '=' ∉ ks) :
    splitEq (ks ++ '=' :: v) = ks :: splitEq v := by
  induction ks with
  | nil =>
    show splitEq ('=' :: v) = [] :: splitEq v
    conv_lhs => unfold splitEq
    rw [if_pos rfl]
  | cons k ks ih =>
    have hk1 : k ≠ '=' := fun hh => hk (by simp [hh])
    have hk2 : '=' ∉ ks := fun hh => hk (List.mem_cons_of_mem _ hh)
    show splitEq (k :: (ks ++ '=' :: v)) = (k :: ks) :: splitEq v
    conv_lhs => unfold splitEq
    rw [if_neg hk1, ih hk2]

/-- C10: a request carrying exactly the session cookie the auth endpoint
sets (key "user") is treated by the quiz-history route as unauthenticated
— its `getUsername` looks up the key "username" — so its GET and POST both
return 401 for every such request. -/
theorem quiz_history_rejects_auth_cookie (v : List Char) (hv : ';' ∉ v)
    (history : List QuizSession) (limit : Nat) (s : QuizSession) :
    quizHistoryUsername (some (cookieHeaderOf (authSessionCookie v))) = none ∧
    quizHistoryGET (some (cookieHeaderOf (authSessionCookie v))) history limit =
      .error 401 ∧
    quizHistoryPOST (some (cookieHeaderOf (authSessionCookie v))) history s =
      .error 401 := by
  have hheader : cookieHeaderOf (authSessionCookie v) =
      "user".toList ++ '=' :: v := rfl
  have hnosemi : ';' ∉ "user".toList ++ '=' :: v := by
    intro hh
    rcases List.mem_append.mp hh with h | h
    · revert h
      decide
    · rcases List.mem_cons.mp h with h | h
      · exact absurd h (by decide)
      · exact hv h
  have hsplit : splitSemiSpace ("user".toList ++ '=' :: v) =
      ["user".toList ++ '=' :: v] :=
    splitSemiSpace_of_no_semi _ hnosemi
  have hpair : parseCookiePair ("user".toList ++ '=' :: v) =
      ("user".toList, joinEq (splitEq v)) := by
    unfold parseCookiePair
    rw [splitEq_append "user".toList v (by decide)]
  have huser :
      quizHistoryUsername (some (cookieHeaderOf (authSessionCookie v))) = none := by
    rw [hheader]
    show (match ((splitSemiSpace ("user".toList ++ '=' :: v)).map
          parseCookiePair).reverse.find? (fun q => q.1 == "username".toList) with
      | none => none
      | some q => if q.2 = [] then none else some q.2) = none
    rw [hsplit]
    simp only [List.map_cons, List.map_nil, hpair, List.reverse_cons,
      List.reverse_nil, List.nil_append]
    rw [List.find?_cons_of_neg _ (by simp), List.find?_nil]
  refine ⟨huser, ?_, ?_⟩
  · unfold quizHistoryGET
    rw [huser]
  · unfold quizHistoryPOST
    rw [huser]

/-- Witness for C10 at the username "alice". -/
theorem quiz_history_rejects_auth_cookie_witness :
    (';' ∉ "alice".toList) ∧
    (quizHistoryUsername (some (cookieHeaderOf (authSessionCookie "alice".toList))) =
        none ∧
      quizHistoryGET (some (cookieHeaderOf (authSessionCookie "alice".toList)))
          [] 10 = .error 401 ∧
      quizHistoryPOST (some (cookieHeaderOf (authSessionCookie "alice".toList)))
          [] ⟨1, "Read", 5, 4, 80⟩ = .error 401) :=
  ⟨by decide,
   quiz_history_rejects_auth_cookie "alice".toList (by decide) [] 10
     ⟨1, "Read", 5, 4, 80⟩⟩

end ChineseLearning
